import Mathlib

/-!
# Verification of `folder-compare` (src/src/main.rs)

A shallow embedding of the Rust program `folder-compare`, which indexes two
directory trees by MD5 content fingerprint and classifies every file of tree B
as duplicate-of-A or unique-to-B, then optionally deletes duplicates or writes
path lists to output files.

Modelling conventions:
* File contents are byte lists (`List Nat`); paths and fingerprints are `String`s.
* The external filesystem is a structure `FS` of two capabilities: `walk`
  (the `WalkDir` entry stream for a root, each entry either an error or a
  `(path, is_file)` pair) and `read` (the combined `File::open` +
  `read_to_end`, returning the byte content or an error message).
* The external `md5::compute`-plus-hex-format step is a parameter
  `md5c : List Nat → String`; the program treats it as an arbitrary pure
  function of the byte content.
* `rayon`'s parallel iteration makes the order in which files are hashed and
  inserted into the mutex-guarded map nondeterministic.  The mutex guarantees
  the effect is SOME interleaving of the per-file inserts, i.e. a fold of the
  inserts over SOME permutation of the discovered paths.  `indexFold` performs
  that fold for a given processing order; `get_md5_dict` uses the walk order,
  and order-insensitivity is proved separately (idempotence up to permutation).
* `HashMap<String, Vec<PathBuf>>` is modelled as an association list
  `Index = List (String × List String)` whose keys stay distinct by
  construction (`insertEntry` models `map.entry(hash).or_default().push(path)`).
* Console side effects: `eprintln!` per-file hash failures are collected in a
  log (second component of `indexFold`); `println!` reporting does not affect
  the returned data and is not modelled.
-/

namespace FolderCompare

/-- The filesystem as seen by the program: the `WalkDir` entry stream for a
root directory, and the combined open-and-read-to-end of one file. -/
structure FS where
  walk : String → List (Except String (String × Bool))
  read : String → Except String (List Nat)

/-- `calculate_md5` (main.rs lines 17–25): open and fully read the file, then
hash the byte buffer.  Open and read failures both surface as `Err` with a
path-naming context message. -/
def calculate_md5 (fs : FS) (md5c : List Nat → String) (path : String) :
    Except String String :=
  match fs.read path with
  | .error e => .error ("无法读取文件: " ++ path ++ ": " ++ e)
  | .ok buffer => .ok (md5c buffer)

/-- `HashMap<String, Vec<PathBuf>>`: fingerprint → paths, keys distinct. -/
abbrev Index := List (String × List String)

/-- `HashMap::get`. -/
def lookupIndex (m : Index) (k : String) : Option (List String) :=
  match m with
  | [] => none
  | (k', v) :: rest => if k' = k then some v else lookupIndex rest k

/-- `HashMap::contains_key`. -/
def containsKey (m : Index) (k : String) : Bool :=
  (lookupIndex m k).isSome

/-- The keys of an index. -/
def keysOf (m : Index) : List String :=
  m.map Prod.fst

/-- Every path stored in the index (concatenation of all value lists). -/
def allPaths (m : Index) : List String :=
  (m.map Prod.snd).flatten

/-- The path list stored under a fingerprint (empty when absent). -/
def lookupPaths (m : Index) (k : String) : List String :=
  (lookupIndex m k).getD []

/-- `map.entry(hash).or_default().push(path)`: append `p` to the list under
`k`, creating the entry when absent. -/
def insertEntry (m : Index) (k : String) (p : String) : Index :=
  match m with
  | [] => [(k, [p])]
  | (k', v) :: rest =>
      if k' = k then (k', v ++ [p]) :: rest
      else (k', v) :: insertEntry rest k p

/-- Lines 28–33: the `WalkDir` stream with `filter_map(Result::ok)` (walk
errors silently dropped) and `filter(is_file)` (non-file entries skipped). -/
def walkedFiles (fs : FS) (dir : String) : List String :=
  (fs.walk dir).filterMap (fun e =>
    match e with
    | .error _ => none
    | .ok (p, isFile) => if isFile then some p else none)

/-- Lines 47–56: hash every discovered path and insert into the shared map;
a per-file failure is reported (`eprintln!`, collected in the second
component) and the file is skipped.  The fold order stands for the
interleaving rayon happened to produce. -/
def indexFold (fs : FS) (md5c : List Nat → String) (paths : List String) :
    Index × List String :=
  paths.foldl (fun acc path =>
    match calculate_md5 fs md5c path with
    | .ok hash => (insertEntry acc.1 hash path, acc.2)
    | .error e => (acc.1, acc.2 ++ ["计算文件 " ++ path ++ " MD5 时出错: " ++ e]))
    ([], [])

/-- The index built by processing `paths` in the given order. -/
def indexOfOrder (fs : FS) (md5c : List Nat → String) (paths : List String) :
    Index :=
  (indexFold fs md5c paths).1

/-- `get_md5_dict` (lines 27–66): walk the root, hash all regular files, and
return the fingerprint index.  The `Result` return type is kept from the
source; note that no code path of the body produces `Err`. -/
def get_md5_dict (fs : FS) (md5c : List Nat → String) (dir : String) :
    Except String Index :=
  .ok (indexOfOrder fs md5c (walkedFiles fs dir))

/-- The `eprintln!` messages emitted by `get_md5_dict`, one per file whose
hashing failed (the error side channel of lines 53). -/
def get_md5_dict_stderr (fs : FS) (md5c : List Nat → String) (dir : String) :
    List String :=
  (indexFold fs md5c (walkedFiles fs dir)).2

/-- The reconciliation core of `compare_folders` (lines 74–100): for every
fingerprint of A that also occurs in B, extend `b_duplicates` with all of B's
paths under it; for every fingerprint of B absent from A, push all of B's
paths under it onto `b_unique`.  The `println!` reporting of A-only and
B-only fingerprints does not affect the returned pair. -/
def reconcile (a_map b_map : Index) : List String × List String :=
  let b_duplicates := a_map.foldl (fun acc kv =>
    match lookupIndex b_map kv.1 with
    | some b_paths => acc ++ b_paths
    | none => acc) []
  let b_unique := b_map.foldl (fun acc kv =>
    if containsKey a_map kv.1 then acc else acc ++ kv.2) []
  (b_duplicates, b_unique)

/-- `compare_folders` (lines 68–101): index both roots, then reconcile. -/
def compare_folders (fs : FS) (md5c : List Nat → String) (dir_a dir_b : String) :
    Except String (List String × List String) :=
  match get_md5_dict fs md5c dir_a with
  | .error e => .error e
  | .ok a_map =>
      match get_md5_dict fs md5c dir_b with
      | .error e => .error e
      | .ok b_map => .ok (reconcile a_map b_map)

/-- Rust `str::contains("c")` for a one-character pattern: substring search,
equivalent to character membership. -/
def containsStr (s : String) (c : Char) : Bool :=
  s.toList.contains c

/-- Rust `str::trim`: remove leading and trailing whitespace. -/
def rustTrim (s : String) : String :=
  String.mk (((s.toList.dropWhile Char.isWhitespace).reverse.dropWhile
    Char.isWhitespace).reverse)

/-- Rust `str::to_lowercase`, character by character (the ASCII-relevant
behaviour of the action strings). -/
def rustToLower (s : String) : String :=
  String.mk (s.toList.map Char.toLower)

/-- Lines 119–130: the effective action string.  An argv action argument is
used verbatim (`input.clone()`); otherwise a line read from stdin is trimmed
and lowercased (`user_input.trim().to_lowercase()`). -/
def effectiveInput (argvAction : Option String) (stdinLine : String) : String :=
  match argvAction with
  | some input => input
  | none => rustToLower (rustTrim stdinLine)

/-- The outside world for `main`'s action phase: whether `fs::remove_file`,
`File::create` and `writeln!` succeed for a given path / output file / line. -/
structure Env where
  removeOk : String → Bool
  createOk : String → Bool
  writeOk : String → String → Bool

/-- Observable filesystem state threaded through `main`'s action phase:
the surviving files of tree B, the per-file delete reports (path, success),
and the created output files with the lines actually written. -/
structure MainState where
  existing : List String
  deleteReports : List (String × Bool)
  outFiles : List (String × List String)
deriving DecidableEq, Repr

/-- Lines 132–141: `for file in &b_duplicates { if fs::remove_file(..).is_ok()
{..已删除..} else {..删除失败..} }` — one report per path, never aborting. -/
def deleteLoop (env : Env) (b_duplicates : List String) (s : MainState) :
    MainState :=
  b_duplicates.foldl (fun st f =>
    if env.removeOk f then
      { st with
        existing := st.existing.erase f
        deleteReports := st.deleteReports ++ [(f, true)] }
    else
      { st with deleteReports := st.deleteReports ++ [(f, false)] }) s

/-- The `writeln!` loop with `?`: lines written so far, and whether all
writes succeeded (a failure stops the loop and propagates). -/
def writeLoop (env : Env) (name : String) (lines : List String) :
    List String × Bool :=
  match lines with
  | [] => ([], true)
  | l :: ls =>
      if env.writeOk name l then
        let r := writeLoop env name ls
        (l :: r.1, r.2)
      else ([], false)

/-- One output action (lines 142–151 or 152–161): `File::create(name)?` then
the `writeln!` loop.  Returns the new state and whether the action completed
without the `?` firing; on create failure no file appears, on a mid-write
failure the file exists with the lines written before the failure. -/
def outputAction (env : Env) (name : String) (lines : List String)
    (s : MainState) : MainState × Bool :=
  if env.createOk name then
    let r := writeLoop env name lines
    ({ s with outFiles := s.outFiles ++ [(name, r.1)] }, r.2)
  else (s, false)

/-- Lines 142–161 of `main`: the two output actions, run after the delete
phase.  An `Err` from `File::create(..)?` or `writeln!(..)?` in the `o`
block propagates out of `main` at once, so the `u` block is not reached in
that case. -/
def mainOutputs (env : Env) (input : String)
    (b_duplicates b_unique : List String) (s1 : MainState) : MainState × Bool :=
  if containsStr input 'o' then
    match outputAction env "BSame_files.txt" b_duplicates s1 with
    | (s2, true) =>
        if containsStr input 'u' then
          outputAction env "BUnique_files.txt" b_unique s2
        else (s2, true)
    | (s2, false) => (s2, false)
  else
    if containsStr input 'u' then
      outputAction env "BUnique_files.txt" b_unique s1
    else (s1, true)

/-- Lines 132–162 of `main`: the action phase, given the effective action
string and the reconciliation result.  The returned `Bool` is `true` iff
`main` reaches its final `Ok(())` — an `Err` from an output action's `?`
aborts `main` immediately, so a later requested action is not attempted. -/
def runMain (env : Env) (input : String) (b_duplicates b_unique : List String)
    (s0 : MainState) : MainState × Bool :=
  mainOutputs env input b_duplicates b_unique
    (if containsStr input 'y' then deleteLoop env b_duplicates s0 else s0)

/-! ## Basic lemmas about the index operations -/

theorem containsKey_nil (x : String) : containsKey [] x = false := rfl

theorem containsKey_cons (k : String) (v : List String) (m : Index) (x : String) :
    containsKey ((k, v) :: m) x = if k = x then true else containsKey m x := by
  unfold containsKey
  rw [lookupIndex]
  by_cases h : k = x
  · rw [if_pos h, if_pos h]
    rfl
  · rw [if_neg h, if_neg h]

theorem containsKey_cons' (kv : String × List String) (m : Index) (x : String) :
    containsKey (kv :: m) x = if kv.1 = x then true else containsKey m x := by
  obtain ⟨k, v⟩ := kv
  exact containsKey_cons k v m x

theorem lookupIndex_eq_none_of_not_mem {m : Index} {k : String}
    (h : k ∉ keysOf m) : lookupIndex m k = none := by
  induction m with
  | nil => rfl
  | cons kv m' ih =>
      obtain ⟨k0, v0⟩ := kv
      simp only [keysOf, List.map_cons, List.mem_cons] at h
      push_neg at h
      rw [lookupIndex, if_neg (fun he => h.1 he.symm)]
      exact ih h.2

theorem ne_of_lookupIndex_none {m : Index} {k : String}
    (h : lookupIndex m k = none) : ∀ kv ∈ m, kv.1 ≠ k := by
  induction m with
  | nil => simp
  | cons kv' m' ih =>
      rw [lookupIndex] at h
      intro kv hkv
      rcases List.mem_cons.1 hkv with rfl | hmem
      · intro he
        rw [if_pos he] at h
        exact Option.noConfusion h
      · split at h
        · exact Option.noConfusion h
        · exact ih h kv hmem

/-! ## Characterizations of `reconcile` -/

theorem bDup_foldl (b : Index) (a : Index) (acc : List String) :
    a.foldl (fun acc kv =>
      match lookupIndex b kv.1 with
      | some b_paths => acc ++ b_paths
      | none => acc) acc
    = acc ++ (a.filterMap (fun kv => lookupIndex b kv.1)).flatten := by
  induction a generalizing acc with
  | nil => simp
  | cons kv a' ih =>
      rw [List.foldl_cons, List.filterMap_cons]
      cases h : lookupIndex b kv.1 with
      | none => simp only [h, ih]
      | some bp => simp only [h, ih, List.flatten_cons, List.append_assoc]

theorem bUnique_foldl (a : Index) (b : Index) (acc : List String) :
    b.foldl (fun acc kv =>
      if containsKey a kv.1 then acc else acc ++ kv.2) acc
    = acc ++ ((b.filter (fun kv => !(containsKey a kv.1))).map Prod.snd).flatten := by
  induction b generalizing acc with
  | nil => simp
  | cons kv b' ih =>
      cases h : containsKey a kv.1 <;>
        simp [List.foldl_cons, List.filter_cons, h, ih, List.append_assoc]

theorem reconcile_fst (a b : Index) :
    (reconcile a b).1 = (a.filterMap (fun kv => lookupIndex b kv.1)).flatten := by
  show a.foldl _ [] = _
  rw [bDup_foldl]
  rfl

theorem reconcile_snd (a b : Index) :
    (reconcile a b).2
      = ((b.filter (fun kv => !(containsKey a kv.1))).map Prod.snd).flatten := by
  show b.foldl _ [] = _
  rw [bUnique_foldl]
  rfl

/-! ## The shared-fingerprint permutation lemma -/

/-- Pulling the unique `b`-entry with key `k` out of a filter over `b`:
if `b`'s keys are distinct, `lookupIndex b k = some bp`, and the filter
predicate accepts `k`, then the filtered list is a permutation of that entry
followed by the filter that additionally excludes key `k`. -/
theorem filter_perm_cons_of_lookup (b : Index) (k : String) (bp : List String)
    (q : String → Bool) (hb : (keysOf b).Nodup) (hl : lookupIndex b k = some bp)
    (hq : q k = true) :
    (b.filter (fun kv => q kv.1)).Perm
      ((k, bp) :: b.filter (fun kv => q kv.1 && !(kv.1 == k))) := by
  induction b with
  | nil => exact absurd hl (by rw [lookupIndex]; exact Option.noConfusion)
  | cons kv b' ih =>
      obtain ⟨k0, v0⟩ := kv
      simp only [keysOf, List.map_cons, List.nodup_cons] at hb
      rw [lookupIndex] at hl
      by_cases hk : k0 = k
      · subst hk
        rw [if_pos rfl] at hl
        injection hl with hl
        subst hl
        have hnone : ∀ kv ∈ b', kv.1 ≠ k0 := by
          intro kv hkv he
          exact hb.1 (he ▸ List.mem_map_of_mem Prod.fst hkv)
        rw [List.filter_cons, List.filter_cons]
        simp only [hq, if_true, beq_self_eq_true, Bool.not_true, Bool.and_false,
          Bool.false_eq_true, if_false]
        have hcongr : b'.filter (fun kv => q kv.1 && !(kv.1 == k0))
            = b'.filter (fun kv => q kv.1) := by
          apply List.filter_congr
          intro x hx
          have : (x.1 == k0) = false := beq_false_of_ne (hnone x hx)
          rw [this, Bool.not_false, Bool.and_true]
        rw [hcongr]
      · rw [if_neg hk] at hl
        have h' := ih hb.2 hl
        rw [List.filter_cons, List.filter_cons]
        by_cases hq0 : q k0 = true
        · have hne : ((k0, v0).1 == k) = false := beq_false_of_ne hk
          simp only [hq0, hne, Bool.not_false, Bool.and_true, if_true]
          exact (h'.cons (k0, v0)).trans (List.Perm.swap _ _ _)
        · have hq0' : q (k0, v0).1 = false := Bool.eq_false_iff.2 hq0
          simp only [hq0', Bool.false_and, Bool.false_eq_true, if_false]
          exact h'

/-- The B-side lists selected through A's keys are (as a list of lists) a
permutation of the B-entries whose key occurs in A. -/
theorem filterMap_lookup_perm (a b : Index) (ha : (keysOf a).Nodup)
    (hb : (keysOf b).Nodup) :
    (a.filterMap (fun kv => lookupIndex b kv.1)).Perm
      ((b.filter (fun kv => containsKey a kv.1)).map Prod.snd) := by
  induction a with
  | nil =>
      simp only [List.filterMap_nil]
      have : b.filter (fun kv => containsKey [] kv.1) = [] := by
        apply List.filter_eq_nil_iff.2
        intro x _
        rw [containsKey_nil]
        exact Bool.false_ne_true
      rw [this, List.map_nil]
  | cons kv a' ih =>
      obtain ⟨k, v⟩ := kv
      simp only [keysOf, List.map_cons, List.nodup_cons] at ha
      have hknot : containsKey a' k = false := by
        unfold containsKey
        rw [lookupIndex_eq_none_of_not_mem ha.1]
        rfl
      rw [List.filterMap_cons]
      cases hbk : lookupIndex b k with
      | none =>
          have hcongr : b.filter (fun kv' => containsKey ((k, v) :: a') kv'.1)
              = b.filter (fun kv' => containsKey a' kv'.1) := by
            apply List.filter_congr
            intro x hx
            rw [containsKey_cons]
            rcases eq_or_ne k x.1 with he | hne
            · exact absurd he.symm (ne_of_lookupIndex_none hbk x hx)
            · rw [if_neg hne]
          rw [hcongr]
          exact ih ha.2
      | some bp =>
          have hq : containsKey ((k, v) :: a') k = true := by
            rw [containsKey_cons, if_pos rfl]
          have h1 := filter_perm_cons_of_lookup b k bp
            (fun x => containsKey ((k, v) :: a') x) hb hbk hq
          have h2 : b.filter (fun kv' => containsKey ((k, v) :: a') kv'.1 && !(kv'.1 == k))
              = b.filter (fun kv' => containsKey a' kv'.1) := by
            apply List.filter_congr
            intro x hx
            rw [containsKey_cons]
            rcases eq_or_ne k x.1 with he | hne
            · have : (x.1 == k) = true := beq_iff_eq.2 he.symm
              rw [this, if_pos he]
              simp only [Bool.not_true, Bool.and_false]
              rw [← he, hknot]
            · have : (x.1 == k) = false := beq_false_of_ne (fun h => hne h.symm)
              rw [if_neg hne, this, Bool.not_false, Bool.and_true]
          rw [h2] at h1
          have h3 := h1.map Prod.snd
          exact ((ih ha.2).cons bp).trans h3.symm

/-- The `b_duplicates` component is a permutation of the paths of the
B-entries whose fingerprint occurs in A. -/
theorem reconcile_fst_perm (a b : Index) (ha : (keysOf a).Nodup)
    (hb : (keysOf b).Nodup) :
    (reconcile a b).1.Perm
      (((b.filter (fun kv => containsKey a kv.1)).map Prod.snd).flatten) := by
  rw [reconcile_fst]
  exact (filterMap_lookup_perm a b ha hb).flatten

/-- C1: for every pair of fingerprint indices A and B (with distinct keys, as
`HashMap` guarantees), the reconciliation output partitions B's paths:
`b_duplicates ++ b_unique` is a permutation of all paths stored in B's index
(no omission, each path exactly as often as B stores it), and when B's stored
paths are pairwise distinct the two sequences are disjoint (no overlap). -/
theorem reconcile_partition (a_map b_map : Index)
    (ha : (keysOf a_map).Nodup) (hb : (keysOf b_map).Nodup) :
    ((reconcile a_map b_map).1 ++ (reconcile a_map b_map).2).Perm
        (allPaths b_map)
    ∧ ((allPaths b_map).Nodup →
        (reconcile a_map b_map).1.Disjoint (reconcile a_map b_map).2) := by
  have hperm : ((reconcile a_map b_map).1 ++ (reconcile a_map b_map).2).Perm
      (allPaths b_map) := by
    rw [reconcile_snd]
    refine ((reconcile_fst_perm a_map b_map ha hb).append_right _).trans ?_
    rw [← List.flatten_append, ← List.map_append]
    exact ((List.filter_append_perm _ b_map).map Prod.snd).flatten
  exact ⟨hperm, fun hnd => List.disjoint_of_nodup_append (hperm.symm.nodup hnd)⟩

/-- Witness for C1 at a concrete pair of indices: A holds fingerprints
`h1, h2`; B holds `h1` (two paths) and `h3` (one path). -/
theorem reconcile_partition_witness :
    (keysOf [("h1", ["a1"]), ("h2", ["a2"])]).Nodup
    ∧ (keysOf [("h1", ["b1", "b2"]), ("h3", ["b3"])]).Nodup
    ∧ (((reconcile [("h1", ["a1"]), ("h2", ["a2"])]
          [("h1", ["b1", "b2"]), ("h3", ["b3"])]).1
        ++ (reconcile [("h1", ["a1"]), ("h2", ["a2"])]
          [("h1", ["b1", "b2"]), ("h3", ["b3"])]).2).Perm
        (allPaths [("h1", ["b1", "b2"]), ("h3", ["b3"])])
       ∧ ((allPaths [("h1", ["b1", "b2"]), ("h3", ["b3"])]).Nodup →
          (reconcile [("h1", ["a1"]), ("h2", ["a2"])]
            [("h1", ["b1", "b2"]), ("h3", ["b3"])]).1.Disjoint
          (reconcile [("h1", ["a1"]), ("h2", ["a2"])]
            [("h1", ["b1", "b2"]), ("h3", ["b3"])]).2)) :=
  ⟨by decide, by decide,
    reconcile_partition [("h1", ["a1"]), ("h2", ["a2"])]
      [("h1", ["b1", "b2"]), ("h3", ["b3"])] (by decide) (by decide)⟩

/-! ## Demo filesystems and hash used to instantiate theorems -/

/-- A stand-in for the external `md5::compute` + `{:x}` formatting in concrete
instances: any pure function of the byte content will do. -/
def md5demo (buffer : List Nat) : String :=
  String.intercalate "-" (buffer.map toString)

/-- A filesystem whose root `"gone"` does not exist: `WalkDir` yields a single
`Err` entry for it (and `"gone2"` likewise); no file is readable. -/
def fsMissing : FS where
  walk := fun d =>
    if d = "gone" then [.error "No such file or directory"]
    else if d = "gone2" then [.error "Permission denied"]
    else []
  read := fun _ => .error "No such file or directory"

/-- Scenario 3 filesystem: `A` holds `x.txt` with content `dup`; `B` holds
`y1.txt` and `y2.txt`, both with the same content `dup`. -/
def fsScenario3 : FS where
  walk := fun d =>
    if d = "A" then [.ok ("A/x.txt", true)]
    else if d = "B" then [.ok ("B/y1.txt", true), .ok ("B/y2.txt", true)]
    else []
  read := fun p =>
    if p = "A/x.txt" then .ok [100, 117, 112]
    else if p = "B/y1.txt" then .ok [100, 117, 112]
    else if p = "B/y2.txt" then .ok [100, 117, 112]
    else .error "No such file or directory"

/-! ## C2: behaviour on unreadable roots -/

/-- C2 counterexample: the root `"gone"` does not exist — its walk yields only
an `Err` entry — yet `get_md5_dict` returns `Ok` with an empty index (the
claimed `PathUnreadable` failure never happens), and the whole comparison of
two nonexistent roots succeeds with empty results instead of aborting. -/
theorem get_md5_dict_missing_root_returns_empty_index :
    get_md5_dict fsMissing md5demo "gone" = Except.ok []
    ∧ compare_folders fsMissing md5demo "gone" "gone2" = Except.ok ([], []) :=
  ⟨rfl, rfl⟩

/-- C2 amended: the body of `get_md5_dict` has no failing path at all —
`filter_map(Result::ok)` silently drops every walk error, so an unreadable or
nonexistent root produces `Ok` with an index of whatever entries were walked
successfully (empty for a missing root), and `compare_folders` never aborts
because of an unreadable root. -/
theorem get_md5_dict_never_fails (fs : FS) (md5c : List Nat → String)
    (dir_a dir_b : String) :
    (get_md5_dict fs md5c dir_a).isOk = true
    ∧ (compare_folders fs md5c dir_a dir_b).isOk = true :=
  ⟨rfl, rfl⟩

/-! ## C4: a shared fingerprint contributes all of B's paths -/

/-- C4: whenever a fingerprint occurs in A's index (no matter with how many
paths) and B stores the path list `bp` under it, the whole of `bp` is
appended (in order) to `b_duplicates`. -/
theorem reconcile_shared_fingerprint (a b : Index) (h : String)
    (bp : List String) (hA : containsKey a h = true)
    (hB : lookupIndex b h = some bp) :
    bp.Sublist (reconcile a b).1 := by
  rw [reconcile_fst]
  revert hA
  induction a with
  | nil =>
      intro hA
      rw [containsKey_nil] at hA
      exact absurd hA Bool.false_ne_true
  | cons kv a' ih =>
      intro hA
      rw [containsKey_cons'] at hA
      simp only [List.filterMap_cons]
      by_cases hk : kv.1 = h
      · rw [hk, hB, List.flatten_cons]
        exact List.sublist_append_left bp _
      · rw [if_neg hk] at hA
        cases hbk : lookupIndex b kv.1 with
        | none => exact ih hA
        | some l => exact (ih hA).trans (List.sublist_append_right l _)

/-- Witness for C4, which is exactly the spec's Scenario 3 run through the
whole pipeline: A holds one file with content `dup`, B holds two files with
that same content; both B paths land in `b_duplicates` (A's single path
notwithstanding) and `b_unique` is empty. -/
theorem reconcile_shared_fingerprint_witness :
    containsKey [("100-117-112", ["A/x.txt"])] "100-117-112" = true
    ∧ lookupIndex [("100-117-112", ["B/y1.txt", "B/y2.txt"])] "100-117-112"
        = some ["B/y1.txt", "B/y2.txt"]
    ∧ (["B/y1.txt", "B/y2.txt"] : List String).Sublist
        (reconcile [("100-117-112", ["A/x.txt"])]
          [("100-117-112", ["B/y1.txt", "B/y2.txt"])]).1
    ∧ compare_folders fsScenario3 md5demo "A" "B"
        = Except.ok (["B/y1.txt", "B/y2.txt"], []) :=
  ⟨by decide, by decide,
    reconcile_shared_fingerprint _ _ "100-117-112" _ (by decide) (by decide),
    by rfl⟩

/-! ## C5: the fingerprint depends on the byte content alone -/

/-- C5: `calculate_md5` is a deterministic function of the file's full byte
content alone: two files holding byte-identical content — on any filesystems,
under any names or locations — receive equal fingerprints, namely the hash of
that content. -/
theorem calculate_md5_content_only (fs₁ fs₂ : FS) (md5c : List Nat → String)
    (p₁ p₂ : String) (buffer : List Nat)
    (h₁ : fs₁.read p₁ = Except.ok buffer) (h₂ : fs₂.read p₂ = Except.ok buffer) :
    calculate_md5 fs₁ md5c p₁ = Except.ok (md5c buffer)
    ∧ calculate_md5 fs₁ md5c p₁ = calculate_md5 fs₂ md5c p₂ := by
  unfold calculate_md5
  rw [h₁, h₂]
  exact ⟨rfl, rfl⟩

/-- Witness for C5: `A/x.txt` and `B/y1.txt` of the Scenario 3 filesystem
carry the same bytes and hash identically. -/
theorem calculate_md5_content_only_witness :
    fsScenario3.read "A/x.txt" = Except.ok [100, 117, 112]
    ∧ fsScenario3.read "B/y1.txt" = Except.ok [100, 117, 112]
    ∧ calculate_md5 fsScenario3 md5demo "A/x.txt"
        = Except.ok (md5demo [100, 117, 112])
    ∧ calculate_md5 fsScenario3 md5demo "A/x.txt"
        = calculate_md5 fsScenario3 md5demo "B/y1.txt" :=
  ⟨rfl, rfl,
    (calculate_md5_content_only fsScenario3 fsScenario3 md5demo
      "A/x.txt" "B/y1.txt" [100, 117, 112] rfl rfl).1,
    (calculate_md5_content_only fsScenario3 fsScenario3 md5demo
      "A/x.txt" "B/y1.txt" [100, 117, 112] rfl rfl).2⟩

/-! ## C6: per-file failures are isolated -/

theorem allPaths_cons (kv : String × List String) (m : Index) :
    allPaths (kv :: m) = kv.2 ++ allPaths m := rfl

theorem allPaths_insertEntry (m : Index) (k p : String) :
    (allPaths (insertEntry m k p)).Perm (allPaths m ++ [p]) := by
  induction m with
  | nil => simp [insertEntry, allPaths]
  | cons kv m' ih =>
      obtain ⟨k', v⟩ := kv
      rw [insertEntry]
      by_cases hk : k' = k
      · rw [if_pos hk, allPaths_cons, allPaths_cons, List.append_assoc,
          List.append_assoc]
        exact List.Perm.append_left v List.perm_append_comm
      · rw [if_neg hk, allPaths_cons, allPaths_cons, List.append_assoc]
        exact List.Perm.append_left v ih

/-- The `eprintln!` message for a file whose hashing failed. -/
def hashErrMsg (fs : FS) (md5c : List Nat → String) (path : String) : String :=
  match calculate_md5 fs md5c path with
  | .error e => "计算文件 " ++ path ++ " MD5 时出错: " ++ e
  | .ok _ => ""

theorem indexFold_characterization (fs : FS) (md5c : List Nat → String)
    (paths : List String) (m : Index) (log : List String) :
    (allPaths (paths.foldl (fun acc path =>
        match calculate_md5 fs md5c path with
        | .ok hash => (insertEntry acc.1 hash path, acc.2)
        | .error e =>
            (acc.1, acc.2 ++ ["计算文件 " ++ path ++ " MD5 时出错: " ++ e]))
        (m, log)).1).Perm
      (allPaths m ++ paths.filter (fun p => (calculate_md5 fs md5c p).isOk))
    ∧ (paths.foldl (fun acc path =>
        match calculate_md5 fs md5c path with
        | .ok hash => (insertEntry acc.1 hash path, acc.2)
        | .error e =>
            (acc.1, acc.2 ++ ["计算文件 " ++ path ++ " MD5 时出错: " ++ e]))
        (m, log)).2
      = log ++ (paths.filter (fun p => !(calculate_md5 fs md5c p).isOk)).map
          (hashErrMsg fs md5c) := by
  induction paths generalizing m log with
  | nil => exact ⟨by simp, by simp⟩
  | cons p ps ih =>
      cases hc : calculate_md5 fs md5c p with
      | ok hash =>
          simp only [List.foldl_cons, List.filter_cons, hc, Except.isOk,
            Bool.not_true, Bool.false_eq_true, if_false, if_true]
          refine ⟨?_, (ih (insertEntry m hash p) log).2⟩
          refine ((ih (insertEntry m hash p) log).1).trans ?_
          refine ((allPaths_insertEntry m hash p).append_right _).trans ?_
          rw [List.append_assoc]
          exact List.Perm.refl _
      | error e =>
          have hmsg : hashErrMsg fs md5c p
              = "计算文件 " ++ p ++ " MD5 时出错: " ++ e := by
            unfold hashErrMsg
            rw [hc]
          simp only [List.foldl_cons, List.filter_cons, hc, Except.isOk,
            Bool.not_false, Bool.false_eq_true, if_false, if_true,
            List.map_cons, hmsg]
          refine ⟨(ih m (log ++ ["计算文件 " ++ p ++ " MD5 时出错: " ++ e])).1, ?_⟩
          rw [(ih m (log ++ ["计算文件 " ++ p ++ " MD5 时出错: " ++ e])).2,
            List.append_assoc]
          simp [hmsg, Except.isOk, Except.toBool]

/-- C6: per-file read failures are isolated.  For every filesystem, hash and
root: `get_md5_dict` returns `Ok`; the index holds exactly the walked files
whose read succeeded (as a multiset — so one unreadable file among `N`
readable ones yields exactly the `N` readable entries); every indexed path
was readable; and the error channel carries exactly one report per failed
file. -/
theorem get_md5_dict_isolation (fs : FS) (md5c : List Nat → String)
    (dir : String) :
    ∃ m, get_md5_dict fs md5c dir = Except.ok m
    ∧ (allPaths m).Perm
        ((walkedFiles fs dir).filter (fun p => (calculate_md5 fs md5c p).isOk))
    ∧ (∀ p, p ∈ allPaths m → (calculate_md5 fs md5c p).isOk = true)
    ∧ (get_md5_dict_stderr fs md5c dir).length
        = ((walkedFiles fs dir).filter
            (fun p => !(calculate_md5 fs md5c p).isOk)).length := by
  refine ⟨indexOfOrder fs md5c (walkedFiles fs dir), rfl, ?_, ?_, ?_⟩
  · have h := (indexFold_characterization fs md5c (walkedFiles fs dir) [] []).1
    simpa [allPaths] using h
  · intro p hp
    have h := (indexFold_characterization fs md5c (walkedFiles fs dir) [] []).1
    have hmem : p ∈ (walkedFiles fs dir).filter
        (fun p => (calculate_md5 fs md5c p).isOk) := by
      refine (h.mem_iff).1 ?_
      simpa [allPaths] using hp
    exact (List.mem_filter.1 hmem).2
  · have h := (indexFold_characterization fs md5c (walkedFiles fs dir) [] []).2
    unfold get_md5_dict_stderr indexFold
    rw [h]
    simp

/-! ## C8: indexing is order-insensitive (idempotence up to permutation) -/

theorem lookupPaths_insertEntry (m : Index) (k p hash : String) :
    lookupPaths (insertEntry m k p) hash
      = lookupPaths m hash ++ (if k = hash then [p] else []) := by
  induction m with
  | nil =>
      by_cases hk : k = hash <;>
        simp [insertEntry, lookupPaths, lookupIndex, hk]
  | cons kv m' ih =>
      obtain ⟨k', v⟩ := kv
      rw [insertEntry]
      by_cases hk' : k' = k
      · subst hk'
        by_cases hh : k' = hash <;>
          simp [lookupPaths, lookupIndex, hh]
      · rw [if_neg hk']
        by_cases hh : k' = hash
        · have : k ≠ hash := fun he => hk' (hh.trans he.symm)
          simp [lookupPaths, lookupIndex, hh, this]
        · simp only [lookupPaths, lookupIndex, if_neg hh]
          exact ih

theorem lookupPaths_indexOfOrder (fs : FS) (md5c : List Nat → String)
    (paths : List String) (hash : String) :
    lookupPaths (indexOfOrder fs md5c paths) hash
      = paths.filter (fun p =>
          match calculate_md5 fs md5c p with
          | .ok h => h == hash
          | .error _ => false) := by
  have go : ∀ (ps : List String) (m : Index) (log : List String),
      lookupPaths ((ps.foldl (fun acc path =>
        match calculate_md5 fs md5c path with
        | .ok h => (insertEntry acc.1 h path, acc.2)
        | .error e =>
            (acc.1, acc.2 ++ ["计算文件 " ++ path ++ " MD5 时出错: " ++ e]))
        (m, log)).1) hash
      = lookupPaths m hash ++ ps.filter (fun p =>
          match calculate_md5 fs md5c p with
          | .ok h => h == hash
          | .error _ => false) := by
    intro ps
    induction ps with
    | nil => intro m log; simp
    | cons p ps' ih =>
        intro m log
        rw [List.foldl_cons, List.filter_cons]
        cases hc : calculate_md5 fs md5c p with
        | ok h =>
            rw [ih]
            by_cases hh : h = hash
            · have hb : (h == hash) = true := beq_iff_eq.2 hh
              simp only [hc, hb, if_true, lookupPaths_insertEntry, if_pos hh,
                List.append_assoc]
              rfl
            · have hb : (h == hash) = false := by
                rcases Bool.eq_false_or_eq_true (h == hash) with ht | hf
                · exact absurd (beq_iff_eq.1 ht) hh
                · exact hf
              simp only [hc, hb, Bool.false_eq_true, if_false,
                lookupPaths_insertEntry, if_neg hh, List.append_nil]
        | error e =>
            rw [ih]
            simp only [hc, Bool.false_eq_true, if_false]
  have h := go paths [] []
  unfold indexOfOrder indexFold
  rw [h]
  simp [lookupPaths, lookupIndex]

/-- C8: indexing an unchanged directory is idempotent up to insertion order.
Two indexing runs process the same discovered files in (possibly) different
parallel orders `ord₁`, `ord₂`; the resulting indices assign every
fingerprint path lists that are permutations of each other (equal as sets,
insertion order aside). -/
theorem index_idempotent (fs : FS) (md5c : List Nat → String) (dir : String)
    (ord₁ ord₂ : List String)
    (h₁ : ord₁.Perm (walkedFiles fs dir)) (h₂ : ord₂.Perm (walkedFiles fs dir))
    (hash : String) :
    (lookupPaths (indexOfOrder fs md5c ord₁) hash).Perm
      (lookupPaths (indexOfOrder fs md5c ord₂) hash) := by
  rw [lookupPaths_indexOfOrder, lookupPaths_indexOfOrder]
  exact (h₁.trans h₂.symm).filter _

/-- Witness for C8: run the indexer over `B` of Scenario 3 in walk order and
in reversed order; the path list under the shared fingerprint is a
permutation either way. -/
theorem index_idempotent_witness :
    (["B/y1.txt", "B/y2.txt"] : List String).Perm
        (walkedFiles fsScenario3 "B")
    ∧ (["B/y2.txt", "B/y1.txt"] : List String).Perm
        (walkedFiles fsScenario3 "B")
    ∧ (lookupPaths (indexOfOrder fsScenario3 md5demo
          ["B/y1.txt", "B/y2.txt"]) "100-117-112").Perm
        (lookupPaths (indexOfOrder fsScenario3 md5demo
          ["B/y2.txt", "B/y1.txt"]) "100-117-112") :=
  ⟨by decide, by decide,
    index_idempotent fsScenario3 md5demo "B"
      ["B/y1.txt", "B/y2.txt"] ["B/y2.txt", "B/y1.txt"]
      (by decide) (by decide) "100-117-112"⟩

/-! ## Lemmas about the action phase of `main` -/

theorem deleteLoop_spec (env : Env) (bdup : List String) (s : MainState) :
    (deleteLoop env bdup s).deleteReports
      = s.deleteReports ++ bdup.map (fun f => (f, env.removeOk f))
    ∧ (deleteLoop env bdup s).outFiles = s.outFiles := by
  induction bdup generalizing s with
  | nil => exact ⟨by simp [deleteLoop], rfl⟩
  | cons f rest ih =>
      unfold deleteLoop at ih ⊢
      rw [List.foldl_cons]
      cases hf : env.removeOk f with
      | true =>
          have h1 := ih { s with
            existing := s.existing.erase f
            deleteReports := s.deleteReports ++ [(f, true)] }
          exact ⟨by simp [h1.1, hf], by simp [h1.2]⟩
      | false =>
          have h1 := ih { s with deleteReports := s.deleteReports ++ [(f, false)] }
          exact ⟨by simp [h1.1, hf], by simp [h1.2]⟩

theorem outputAction_deleteReports (env : Env) (name : String)
    (lines : List String) (s : MainState) :
    ((outputAction env name lines s).1).deleteReports = s.deleteReports := by
  unfold outputAction
  by_cases hc : env.createOk name = true <;> simp [hc]

theorem outputAction_create_fail (env : Env) (name : String)
    (lines : List String) (s : MainState) (hc : env.createOk name = false) :
    outputAction env name lines s = (s, false) := by
  unfold outputAction
  rw [hc]
  simp

theorem mainOutputs_deleteReports (env : Env) (input : String)
    (bdup buniq : List String) (s1 : MainState) :
    ((mainOutputs env input bdup buniq s1).1).deleteReports
      = s1.deleteReports := by
  unfold mainOutputs
  by_cases ho : containsStr input 'o' = true
  · rw [if_pos ho]
    rcases hr : outputAction env "BSame_files.txt" bdup s1 with ⟨s2, ok⟩
    have h2 : s2.deleteReports = s1.deleteReports := by
      have h := outputAction_deleteReports env "BSame_files.txt" bdup s1
      rw [hr] at h
      exact h
    cases ok with
    | true =>
        by_cases hu : containsStr input 'u' = true
        · simp [hu, outputAction_deleteReports, h2]
        · simp [hu, h2]
    | false => simpa using h2
  · rw [if_neg ho]
    by_cases hu : containsStr input 'u' = true
    · rw [if_pos hu, outputAction_deleteReports]
    · rw [if_neg hu]

/-! ## C7: deletion failures are isolated -/

/-- C7: when the effective action string contains `y`, the delete loop
attempts every path of `b_duplicates` in order and reports the per-file
outcome; an individual failure never aborts the loop (one report per path
regardless of outcomes), and neither output phase disturbs the reports. -/
theorem runMain_delete_all_attempted (env : Env) (input : String)
    (bdup buniq : List String) (s0 : MainState)
    (hy : containsStr input 'y' = true) :
    ((runMain env input bdup buniq s0).1).deleteReports
      = s0.deleteReports ++ bdup.map (fun f => (f, env.removeOk f)) := by
  unfold runMain
  rw [mainOutputs_deleteReports, hy]
  simp [(deleteLoop_spec env bdup s0).1]

/-- Witness for C7: with `B/d2` undeletable among three duplicates, all three
paths are attempted and reported, the failure in the middle notwithstanding. -/
theorem runMain_delete_all_attempted_witness :
    containsStr "y" 'y' = true
    ∧ ((runMain (Env.mk (fun p => !(p == "B/d2")) (fun _ => true)
          (fun _ _ => true)) "y" ["B/d1", "B/d2", "B/d3"] []
          (MainState.mk ["B/d1", "B/d2", "B/d3"] [] [])).1).deleteReports
      = (MainState.mk ["B/d1", "B/d2", "B/d3"] [] []).deleteReports
        ++ (["B/d1", "B/d2", "B/d3"]).map
            (fun f => (f, (Env.mk (fun p => !(p == "B/d2")) (fun _ => true)
              (fun _ _ => true)).removeOk f)) :=
  ⟨by decide,
    runMain_delete_all_attempted
      (Env.mk (fun p => !(p == "B/d2")) (fun _ => true) (fun _ _ => true))
      "y" ["B/d1", "B/d2", "B/d3"] []
      (MainState.mk ["B/d1", "B/d2", "B/d3"] [] []) (by decide)⟩

/-! ## C3: an output-write failure is NOT isolated to its own action -/

/-- Environment for the C3 counterexample: every deletion and write succeeds,
but `BSame_files.txt` cannot be created. -/
def envOFail : Env where
  removeOk := fun _ => true
  createOk := fun name => !(name == "BSame_files.txt")
  writeOk := fun _ _ => true

/-- C3 counterexample: with action string `"ou"` — both output actions
requested — and only the duplicate-list creation failing, `main` aborts at the
`o` block's `?`: the run ends in `Err` and NO output file at all is created,
although the unique-list action was requested and its own destination was
perfectly writable.  The claim that every other requested action is still
attempted is false. -/
theorem outputWriteFailure_not_isolated :
    runMain envOFail "ou" ["B/d1"] ["B/q1"] (MainState.mk ["B/d1", "B/q1"] [] [])
      = (MainState.mk ["B/d1", "B/q1"] [] [], false)
    ∧ "BUnique_files.txt"
        ∉ ((runMain envOFail "ou" ["B/d1"] ["B/q1"]
            (MainState.mk ["B/d1", "B/q1"] [] [])).1.outFiles.map Prod.fst) :=
  ⟨by decide, by decide⟩

/-- C3 amended: a `y` delete failure is isolated and the delete phase always
runs to completion first, but an `OutputWriteFailure` in the `o` action aborts
`main` immediately: the run returns `Err` (nonzero exit) and any later
requested action — in particular a requested `u` — is not attempted, so no
output file is created at all when the duplicate-list creation fails. -/
theorem output_write_failure_aborts (env : Env) (input : String)
    (bdup buniq : List String) (s0 : MainState)
    (ho : containsStr input 'o' = true)
    (hc : env.createOk "BSame_files.txt" = false) :
    runMain env input bdup buniq s0
      = ((if containsStr input 'y' = true then deleteLoop env bdup s0 else s0),
          false)
    ∧ ((runMain env input bdup buniq s0).1).outFiles = s0.outFiles := by
  have h1 : runMain env input bdup buniq s0
      = ((if containsStr input 'y' = true then deleteLoop env bdup s0 else s0),
          false) := by
    unfold runMain mainOutputs
    rw [if_pos ho, outputAction_create_fail env _ bdup _ hc]
  refine ⟨h1, ?_⟩
  rw [h1]
  by_cases hy : containsStr input 'y' = true
  · rw [if_pos hy]
    exact (deleteLoop_spec env bdup s0).2
  · rw [if_neg hy]

/-- Witness for the amended C3: concrete run with actions `"you"`: deletions
happen and are reported, then the failed `o` action aborts with no output
files written. -/
theorem output_write_failure_aborts_witness :
    containsStr "you" 'o' = true
    ∧ envOFail.createOk "BSame_files.txt" = false
    ∧ runMain envOFail "you" ["B/d1"] ["B/q1"]
          (MainState.mk ["B/d1", "B/q1"] [] [])
        = ((if containsStr "you" 'y' = true then
              deleteLoop envOFail ["B/d1"]
                (MainState.mk ["B/d1", "B/q1"] [] [])
            else MainState.mk ["B/d1", "B/q1"] [] []), false)
    ∧ ((runMain envOFail "you" ["B/d1"] ["B/q1"]
          (MainState.mk ["B/d1", "B/q1"] [] [])).1).outFiles = [] :=
  ⟨by decide, by decide,
    (output_write_failure_aborts envOFail "you" ["B/d1"] ["B/q1"]
      (MainState.mk ["B/d1", "B/q1"] [] []) (by decide) (by decide)).1,
    (output_write_failure_aborts envOFail "you" ["B/d1"] ["B/q1"]
      (MainState.mk ["B/d1", "B/q1"] [] []) (by decide) (by decide)).2⟩

/-! ## C9: argv actions are case-sensitive, interactive input is normalized -/

/-- C9: an argv action argument is used verbatim, so the uppercase string
`"YOU"` triggers no action at all (`runMain` leaves the state untouched and
succeeds); an interactive line is first trimmed and lowercased, so the same
characters typed interactively (even with surrounding whitespace) pass all
three `y`/`o`/`u` containment checks. -/
theorem action_case_sensitivity (env : Env) (bdup buniq : List String)
    (s0 : MainState) (line : String) :
    effectiveInput (some "YOU") line = "YOU"
    ∧ runMain env (effectiveInput (some "YOU") line) bdup buniq s0 = (s0, true)
    ∧ effectiveInput none " YOU\n" = "you"
    ∧ containsStr (effectiveInput none " YOU\n") 'y' = true
    ∧ containsStr (effectiveInput none " YOU\n") 'o' = true
    ∧ containsStr (effectiveInput none " YOU\n") 'u' = true := by
  have hy : containsStr "YOU" 'y' = false := by decide
  have ho : containsStr "YOU" 'o' = false := by decide
  have hu : containsStr "YOU" 'u' = false := by decide
  refine ⟨rfl, ?_, by decide, by decide, by decide, by decide⟩
  show runMain env "YOU" bdup buniq s0 = (s0, true)
  unfold runMain mainOutputs
  rw [hy, ho, hu]
  simp

/-! ## C10: no action characters, no filesystem mutation -/

/-- C10: if the effective action string contains none of `y`, `o`, `u`, the
action phase performs no filesystem mutation whatsoever — no deletion, no
output file — and `main` completes successfully: the state is returned
untouched with success. -/
theorem no_action_no_mutation (env : Env) (input : String)
    (bdup buniq : List String) (s0 : MainState)
    (hy : containsStr input 'y' = false) (ho : containsStr input 'o' = false)
    (hu : containsStr input 'u' = false) :
    runMain env input bdup buniq s0 = (s0, true) := by
  unfold runMain mainOutputs
  rw [hy, ho, hu]
  simp

/-- Witness for C10: the action string `"n"` requests nothing; the state
survives unchanged and the run succeeds. -/
theorem no_action_no_mutation_witness :
    containsStr "n" 'y' = false
    ∧ containsStr "n" 'o' = false
    ∧ containsStr "n" 'u' = false
    ∧ runMain (Env.mk (fun _ => true) (fun _ => true) (fun _ _ => true)) "n"
        ["B/d1"] ["B/q1"] (MainState.mk ["B/d1", "B/q1"] [] [])
      = (MainState.mk ["B/d1", "B/q1"] [] [], true) :=
  ⟨by decide, by decide, by decide,
    no_action_no_mutation
      (Env.mk (fun _ => true) (fun _ => true) (fun _ _ => true)) "n"
      ["B/d1"] ["B/q1"] (MainState.mk ["B/d1", "B/q1"] [] [])
      (by decide) (by decide) (by decide)⟩

end FolderCompare
